import Mathlib

/-!
Verification development for the simulation substrate of the
`simulation-hello-world` repository (diffusion solver, reaction-kinetics
primitives, chemotaxis and the TAFC molecule module).

Python sources are shallowly embedded:
* numpy float arrays become `Fin n → ℚ` (or `→ ℝ` where `np.exp` appears);
* IEEE special values (NaN, ±inf), which matter for the division-guard
  claims, are made explicit through the `FV` type below: numpy's silent
  `0.0/0.0 = nan` is `FV.nan`;
* the scipy conjugate-gradient call is an external solver: its return pair
  `(x, info)` is an uninterpreted input of the functions that call it;
* in-place numpy writes (`np.copyto`, `np.clip(..., out=...)`) are embedded
  by returning the post-call contents of the written buffer explicitly.
-/

open scoped BigOperators

/-- Model of an IEEE-style floating point value over an exact scalar field:
either a finite value, one of the two infinities, or NaN.  numpy float64
arithmetic on the reals/rationals the code manipulates is mirrored by the
operations below (`0/0 = nan`, `x/0 = ±inf` for `x ≠ 0`, NaN propagation). -/
inductive FV (α : Type) where
  | fin : α → FV α
  | inf : FV α
  | ninf : FV α
  | nan : FV α
deriving DecidableEq

namespace FV

variable {α : Type} [LinearOrderedField α]

/-- IEEE addition on the float model. -/
def add : FV α → FV α → FV α
  | .nan, _ => .nan
  | _, .nan => .nan
  | .fin a, .fin b => .fin (a + b)
  | .inf, .ninf => .nan
  | .ninf, .inf => .nan
  | .inf, _ => .inf
  | _, .inf => .inf
  | .ninf, _ => .ninf
  | _, .ninf => .ninf

/-- IEEE negation on the float model. -/
def neg : FV α → FV α
  | .fin a => .fin (-a)
  | .inf => .ninf
  | .ninf => .inf
  | .nan => .nan

/-- IEEE multiplication on the float model (`inf * 0 = nan`). -/
def mul : FV α → FV α → FV α
  | .nan, _ => .nan
  | _, .nan => .nan
  | .fin a, .fin b => .fin (a * b)
  | .inf, .fin b => if b = 0 then .nan else if 0 < b then .inf else .ninf
  | .fin a, .inf => if a = 0 then .nan else if 0 < a then .inf else .ninf
  | .ninf, .fin b => if b = 0 then .nan else if 0 < b then .ninf else .inf
  | .fin a, .ninf => if a = 0 then .nan else if 0 < a then .ninf else .inf
  | .inf, .inf => .inf
  | .inf, .ninf => .ninf
  | .ninf, .inf => .ninf
  | .ninf, .ninf => .inf

/-- IEEE division on the float model (`0/0 = nan`, `a/0 = ±inf` if `a ≠ 0`). -/
def div : FV α → FV α → FV α
  | .nan, _ => .nan
  | _, .nan => .nan
  | .fin a, .fin b =>
      if b = 0 then (if a = 0 then .nan else if 0 < a then .inf else .ninf)
      else .fin (a / b)
  | .fin _, .inf => .fin 0
  | .fin _, .ninf => .fin 0
  | .inf, .fin b => if 0 ≤ b then .inf else .ninf
  | .ninf, .fin b => if 0 ≤ b then .ninf else .inf
  | .inf, .inf => .nan
  | .inf, .ninf => .nan
  | .ninf, .inf => .nan
  | .ninf, .ninf => .nan

instance : Add (FV α) := ⟨FV.add⟩
instance : Neg (FV α) := ⟨FV.neg⟩
instance : Mul (FV α) := ⟨FV.mul⟩
instance : Div (FV α) := ⟨FV.div⟩

/-- IEEE subtraction on the float model. -/
def sub (a b : FV α) : FV α := a + (-b)

instance : Sub (FV α) := ⟨FV.sub⟩

/-- `np.exp` lifted to the real-valued float model. -/
noncomputable def rexp : FV ℝ → FV ℝ
  | .fin x => .fin (Real.exp x)
  | .inf => .inf
  | .ninf => .fin 0
  | .nan => .nan

end FV

/-- Embeds `michaelian_kinetics` (src/nlisim/util.py, lines 78-102):
`h * k_cat * enzyme * substrate / (substrate + k_m * volume)`, an unguarded
numpy expression, so the division follows IEEE semantics (`FV`). -/
def michaelian_kinetics (substrate enzyme k_m h k_cat volume : ℚ) : FV ℚ :=
  FV.fin h * FV.fin k_cat * FV.fin enzyme * FV.fin substrate /
    (FV.fin substrate + FV.fin k_m * FV.fin volume)

/-- Embeds `activation_function` (src/nlisim/util.py, lines 15-20):
`h * (1 - b * np.exp(-x / k_d / volume))`, an unguarded numpy expression,
so the divisions follow IEEE semantics (`FV`). -/
noncomputable def activation_function (x k_d h volume b : ℝ) : FV ℝ :=
  FV.fin h * (FV.fin 1 - FV.fin b * FV.rexp (-(FV.fin x / FV.fin k_d / FV.fin volume)))

/-- Embeds the constant `EPSILON = 1e-50` of src/nlisim/util.py. -/
def EPSILON : ℚ := 1 / 10 ^ 50

/-- Embeds `iron_tf_reaction` (src/nlisim/util.py, lines 44-75), entrywise on
arrays of a common shape.  The source divides by `total_binding_site + EPSILON`
(never zero for non-negative inputs), zeroes the entries where
`total_binding_site == 0`, clamps the relative iron into `[0,1]`, applies the
cubic polynomial, clamps that below by `0`, and finally zeroes the entries
where `total_iron == 0` or `total_binding_site == 0`. -/
def iron_tf_reaction {n : ℕ} (iron tf tf_fe : Fin n → ℚ) (p1 p2 p3 : ℚ) :
    Fin n → ℚ := fun i =>
  let total_binding_site : ℚ := 2 * (tf i + tf_fe i)
  let total_iron : ℚ := iron i + tf_fe i
  let rel0 : ℚ := total_iron / (total_binding_site + EPSILON)
  let rel1 : ℚ := if total_binding_site = 0 then 0 else rel0
  let rel_total_iron : ℚ := max (min rel1 1) 0
  let rel_tf_fe : ℚ :=
    max 0 (((p1 * rel_total_iron + p2) * rel_total_iron + p3) * rel_total_iron)
  if total_binding_site = 0 then 0
  else if total_iron = 0 then 0
  else rel_tf_fe

/-- Embeds `turnover_rate` (src/nlisim/util.py, lines 23-41), entrywise.
When `x_system == 0` the source returns `np.full(x.shape, exp(-r*t))` —
the same value at every entry, with no special case for `x == 0`.
Otherwise it blends toward `x_system`, zeroes the `x == 0` entries and
clips into `[0,1]`. -/
noncomputable def turnover_rate {n : ℕ} (x : Fin n → ℝ) (x_system : ℝ)
    (base_turnover_rate rel_cyt_bind_unit_t : ℝ) : Fin n → ℝ :=
  if x_system = 0 then
    fun _ => Real.exp (-base_turnover_rate * rel_cyt_bind_unit_t)
  else
    fun i =>
      let y : ℝ := (x i - x_system) * Real.exp (-base_turnover_rate * rel_cyt_bind_unit_t)
        + x_system
      let r : ℝ := if x i = 0 then 0 else y / x i
      min 1 (max 0 r)

/-- Cumulative sums, as `np.cumsum`: `cumsumFrom acc [a, b, ...] = [acc+a, acc+a+b, ...]`. -/
def cumsumFrom {α : Type} [Add α] (acc : α) : List α → List α
  | [] => []
  | a :: t => (acc + a) :: cumsumFrom (acc + a) t

/-- `np.argmax` on a boolean array: index of the first `true`, `0` if none. -/
def firstTrueIdx (l : List Bool) : ℕ := (l.findIdx? id).getD 0

/-- Embeds `choose_voxel_by_prob` (src/nlisim/util.py, lines 120-155).
`u` is the value drawn by `rg.uniform()`; a zero weight total short-circuits
to the default before any draw is consumed. -/
def choose_voxel_by_prob {V : Type} (voxels : List V) (default_value : V)
    (weights : List ℚ) (u : ℚ) : V :=
  let normalization_constant : ℚ := weights.sum
  if normalization_constant ≤ 0 then default_value
  else
    let normalized_weights : List ℚ :=
      0 :: weights.map (fun w => w / normalization_constant)
    let random_voxel_idx : ℤ :=
      (firstTrueIdx ((cumsumFrom 0 normalized_weights).map (fun c => decide (0 < c - u)))) - 1
    if random_voxel_idx < 0 then default_value
    else (voxels.get? random_voxel_idx.toNat).getD default_value

/-! ## Diffusion integrator (src/nlisim/diffusion.py) -/

/-- Return pair of the external `scipy.sparse.linalg.cg` call: the
best-effort solution vector and the `info` signal (`0` success, `> 0`
iteration count on non-convergence, `< 0` illegal input or breakdown).
The solver itself is external to the repository, so its outcome is an
uninterpreted input of the embedded callers. -/
structure CGResult (n : ℕ) where
  x : Fin n → ℚ
  info : ℤ

/-- Operator `A = I - (diffusivity*dt/2) L` built inline by
`apply_grid_diffusion` (src/nlisim/diffusion.py, line 125). -/
def grid_cn_a {n : ℕ} (laplacian : Matrix (Fin n) (Fin n) ℚ)
    (diffusivity dt : ℚ) : Matrix (Fin n) (Fin n) ℚ :=
  1 - (diffusivity * dt / 2) • laplacian

/-- Operator `B = I + (diffusivity*dt/2) L` built inline by
`apply_grid_diffusion` (src/nlisim/diffusion.py, line 126). -/
def grid_cn_b {n : ℕ} (laplacian : Matrix (Fin n) (Fin n) ℚ)
    (diffusivity dt : ℚ) : Matrix (Fin n) (Fin n) ℚ :=
  1 + (diffusivity * dt / 2) • laplacian

/-- Embeds `assemble_mesh_laplacian_crank_nicholson`
(src/nlisim/diffusion.py, lines 136-163):
`a = identity(rank) + 0.5*dt*diffusivity*laplacian`,
`b = identity(rank) - 0.5*dt*diffusivity*laplacian`. -/
def assemble_mesh_laplacian_crank_nicholson {n : ℕ}
    (laplacian : Matrix (Fin n) (Fin n) ℚ) (diffusivity dt : ℚ) :
    Matrix (Fin n) (Fin n) ℚ × Matrix (Fin n) (Fin n) ℚ :=
  (1 + ((1 / 2) * dt * diffusivity) • laplacian,
   1 - ((1 / 2) * dt * diffusivity) • laplacian)

/-- Embeds `apply_grid_diffusion` (src/nlisim/diffusion.py, lines 103-133)
after the `cg` call, whose outcome is the argument `cg`:
`info > 0` and `info < 0` both `raise Exception(...)` (lines 128-131),
modelled as `Except.error`; on success the solution is clipped below by `0`
(`np.maximum(0.0, ...)`) and returned as a fresh array. -/
def apply_grid_diffusion {n : ℕ} (var : Fin n → ℚ) (cg : CGResult n) :
    Except String (Fin n → ℚ) :=
  if 0 < cg.info then Except.error "CG failed (after positive-info iterations)"
  else if cg.info < 0 then Except.error "CG failed (negative info)"
  else Except.ok (fun i => max 0 (cg.x i))

/-- The same call, together with the post-call contents of the caller's
`variable` buffer.  The source body performs no in-place write on
`variable`: `.ravel()` is only read, and `b @ v`, `cg`, `np.maximum` all
allocate fresh arrays, so the buffer is returned unchanged. -/
def apply_grid_diffusion_run {n : ℕ} (var : Fin n → ℚ) (cg : CGResult n) :
    Except String (Fin n → ℚ) × (Fin n → ℚ) :=
  (apply_grid_diffusion var cg, var)

/-- Log events emitted by `apply_mesh_diffusion_crank_nicholson`. -/
inductive CGLog where
  | convergenceWarning : ℤ → CGLog
  | breakdownError : CGLog
  | clipWarning : CGLog
deriving DecidableEq

/-- Embeds `apply_mesh_diffusion_crank_nicholson`
(src/nlisim/diffusion.py, lines 166-192) after the `cg` call: every `info`
outcome falls through (positive: warning log; negative: error log); the
result is clipped in place when any entry is negative, and
`np.copyto(variable, result)` writes it into the caller's buffer.  The first
component is the post-call contents of that buffer, the second the logs. -/
def apply_mesh_diffusion_crank_nicholson {n : ℕ} (var : Fin n → ℚ)
    (cg : CGResult n) : (Fin n → ℚ) × List CGLog :=
  let _ := var
  let infoLogs : List CGLog :=
    if cg.info = 0 then []
    else if 0 < cg.info then [CGLog.convergenceWarning cg.info]
    else [CGLog.breakdownError]
  let anyNeg : Bool := decide (∃ i, cg.x i < 0)
  let result : Fin n → ℚ :=
    if anyNeg then fun i => max 0 (cg.x i) else cg.x
  (result, infoLogs ++ (if anyNeg then [CGLog.clipWarning] else []))

/-! ## Discrete Laplacian builders (src/nlisim/diffusion.py, lines 14-100)

The builders use `RectangularGrid` from `nlisim/grid.py`, which is not among
the provided sources; the grid is therefore modelled from the spec. -/

/-- Modelled from the spec: `RectangularGrid` (`nlisim/grid.py` is missing
from the provided sources).  Per spec §3/§4.1: a 3D array of axis-aligned
cells with per-axis (possibly non-uniform) spacing, `shape` ordered
`(z, y, x)`; `delta(axis)` gives the local physical spacing per voxel;
`len(grid)` is the total number of cells; the flattened index is bijective
with the `(x,y,z)` coordinate (C-order `(k*y_extent + j)*x_extent + i`). -/
structure RectangularGrid where
  zExtent : ℕ
  yExtent : ℕ
  xExtent : ℕ
  deltaZ : ℕ → ℕ → ℕ → ℚ
  deltaY : ℕ → ℕ → ℕ → ℚ
  deltaX : ℕ → ℕ → ℕ → ℚ

namespace RectangularGrid

/-- Modelled from the spec: `len(grid)`, the total number of grid cells
(spec §4.2: the Laplacian is sized `(N,N)` with `N` = number of cells). -/
def size (g : RectangularGrid) : ℕ := g.zExtent * g.yExtent * g.xExtent

/-- Voxel `(z=k, y=j, x=i)` lies inside the grid extents. -/
def inBounds (g : RectangularGrid) (k j i : ℕ) : Bool :=
  decide (k < g.zExtent) && decide (j < g.yExtent) && decide (i < g.xExtent)

/-- Modelled from the spec: `grid.get_flattened_index`, the bijective
coordinate-to-scalar-index map (spec §3), in C order. -/
def flattenedIndex (g : RectangularGrid) (k j i : ℕ) : ℕ :=
  (k * g.yExtent + j) * g.xExtent + i

/-- Modelled from the spec: `grid.get_adjacent_voxels(voxel, corners=False)`
returns the in-bounds face-adjacent voxels (spec §4.1: "all grid-adjacent
voxels within bounds", 6-connectivity without corners).  Triples are
`(k, j, i)`. -/
def adjacentVoxels (g : RectangularGrid) (k j i : ℕ) : List (ℕ × ℕ × ℕ) :=
  let candidates : List (ℤ × ℤ × ℤ) :=
    [((k : ℤ) - 1, (j : ℤ), (i : ℤ)), ((k : ℤ) + 1, (j : ℤ), (i : ℤ)),
     ((k : ℤ), (j : ℤ) - 1, (i : ℤ)), ((k : ℤ), (j : ℤ) + 1, (i : ℤ)),
     ((k : ℤ), (j : ℤ), (i : ℤ) - 1), ((k : ℤ), (j : ℤ), (i : ℤ) + 1)]
  candidates.filterMap fun c =>
    if 0 ≤ c.1 ∧ c.1 < (g.zExtent : ℤ) ∧ 0 ≤ c.2.1 ∧ c.2.1 < (g.yExtent : ℤ) ∧
        0 ≤ c.2.2 ∧ c.2.2 < (g.xExtent : ℤ) then
      some (c.1.toNat, c.2.1.toNat, c.2.2.toNat)
    else none

end RectangularGrid

/-- The voxels enumerated by `mask.nonzero()`: in-bounds triples `(k, j, i)`
with a true mask, in C order. -/
def maskedVoxels (g : RectangularGrid) (mask : ℕ → ℕ → ℕ → Bool) :
    List (ℕ × ℕ × ℕ) :=
  (List.range g.zExtent).flatMap fun k =>
    (List.range g.yExtent).flatMap fun j =>
      (List.range g.xExtent).filterMap fun i =>
        if mask k j i then some (k, j, i) else none

/-- The all-zero `dok_matrix`, as a total function on index pairs. -/
def dokZero : ℕ × ℕ → ℚ := fun _ => 0

/-- A single `laplacian[r, c] += v` update on a `dok_matrix`. -/
def dokAdd (M : ℕ × ℕ → ℚ) (r c : ℕ) (v : ℚ) : ℕ × ℕ → ℚ :=
  fun p => if p = (r, c) then M p + v else M p

/-- The two dok updates the builders perform per accepted neighbor:
`laplacian[vi, vi] -= w` then `laplacian[vi, ni] += w`. -/
def stencilUpdate (M : ℕ × ℕ → ℚ) (vi ni : ℕ) (w : ℚ) : ℕ × ℕ → ℚ :=
  dokAdd (dokAdd M vi vi (-w)) vi ni w

/-- Folds the per-neighbor stencil updates of one source voxel. -/
def applyStencil (M : ℕ × ℕ → ℚ) (vi : ℕ) (l : List (ℕ × ℚ)) : ℕ × ℕ → ℚ :=
  l.foldl (fun M' p => stencilUpdate M' vi p.1 p.2) M

/-- Accepted neighbors of a masked voxel in `discrete_laplacian`
(src/nlisim/diffusion.py, lines 33-49): each in-bounds face neighbor that is
itself masked, paired with `1/(dx²+dy²+dz²)` where the displacement is the
per-axis spacing times the coordinate difference. -/
def absNeighborContribs (g : RectangularGrid) (mask : ℕ → ℕ → ℕ → Bool)
    (k j i : ℕ) : List (ℕ × ℚ) :=
  (g.adjacentVoxels k j i).filterMap fun nb =>
    let nk := nb.1
    let nj := nb.2.1
    let ni := nb.2.2
    if mask nk nj ni then
      let dx : ℚ := g.deltaX k j i * ((i : ℚ) - (ni : ℚ))
      let dy : ℚ := g.deltaY k j i * ((j : ℚ) - (nj : ℚ))
      let dz : ℚ := g.deltaZ k j i * ((k : ℚ) - (nk : ℚ))
      some (g.flattenedIndex nk nj ni, 1 / (dx * dx + dy * dy + dz * dz))
    else none

/-- Embeds `discrete_laplacian` (src/nlisim/diffusion.py, lines 14-51):
for every masked voxel, accumulate the stencil updates of its accepted
neighbors into an initially-zero dok matrix. -/
def discrete_laplacian (g : RectangularGrid) (mask : ℕ → ℕ → ℕ → Bool) :
    ℕ × ℕ → ℚ :=
  (maskedVoxels g mask).foldl
    (fun M v => applyStencil M (g.flattenedIndex v.1 v.2.1 v.2.2)
      (absNeighborContribs g mask v.1 v.2.1 v.2.2))
    dokZero

/-- The six offsets `(dk, dj, di)` iterated by `periodic_discrete_laplacian`
(src/nlisim/diffusion.py, line 76). -/
def periodicOffsets : List (ℤ × ℤ × ℤ) :=
  [(-1, 0, 0), (1, 0, 0), (0, -1, 0), (0, 1, 0), (0, 0, -1), (0, 0, 1)]

/-- Accepted neighbors of a masked voxel in `periodic_discrete_laplacian`
(src/nlisim/diffusion.py, lines 76-98): each offset is wrapped modulo the
per-axis extent; the wrapped neighbor must be masked; the displacement uses
the offset itself (`delta * di`), not the wrapped coordinate difference. -/
def perNeighborContribs (g : RectangularGrid) (mask : ℕ → ℕ → ℕ → Bool)
    (k j i : ℕ) : List (ℕ × ℚ) :=
  periodicOffsets.filterMap fun d =>
    let dk := d.1
    let dj := d.2.1
    let di := d.2.2
    let nk : ℕ := (((k : ℤ) + dk) % (g.zExtent : ℤ)).toNat
    let nj : ℕ := (((j : ℤ) + dj) % (g.yExtent : ℤ)).toNat
    let ni : ℕ := (((i : ℤ) + di) % (g.xExtent : ℤ)).toNat
    if mask nk nj ni then
      let dx : ℚ := g.deltaX k j i * (di : ℚ)
      let dy : ℚ := g.deltaY k j i * (dj : ℚ)
      let dz : ℚ := g.deltaZ k j i * (dk : ℚ)
      some (g.flattenedIndex nk nj ni, 1 / (dx * dx + dy * dy + dz * dz))
    else none

/-- Embeds `periodic_discrete_laplacian` (src/nlisim/diffusion.py,
lines 54-100). -/
def periodic_discrete_laplacian (g : RectangularGrid)
    (mask : ℕ → ℕ → ℕ → Bool) : ℕ × ℕ → ℚ :=
  (maskedVoxels g mask).foldl
    (fun M v => applyStencil M (g.flattenedIndex v.1 v.2.1 v.2.2)
      (perNeighborContribs g mask v.1 v.2.1 v.2.2))
    dokZero

/-- Sum of row `r` over the `N` columns of the built matrix. -/
def rowSum (M : ℕ × ℕ → ℚ) (N r : ℕ) : ℚ := ∑ c ∈ Finset.range N, M (r, c)

/-! ## TAFC module advance (src/nlisim/modulesv2/tafc.py) -/

/-- The per-voxel quantities read and written by `TAFC.advance`: the two
TAFC sub-species, the three transferrin sub-species and the iron field.
All grid operations in the advance are entrywise, so one voxel suffices. -/
structure TAFCVoxel where
  tafc : ℚ
  tafcbi : ℚ
  tfFe2 : ℚ
  tfFe : ℚ
  tf : ℚ
  iron : ℚ
deriving DecidableEq

/-- Modelled from the spec: `MoleculeModel.michaelian_kinetics`, the method
called by `TAFC.advance` (`nlisim/modulesv2/molecules.py` is missing from
the provided sources).  Per spec §4.4, `saturable_rate(substrate, enzyme,
k_m, h, volume, k_cat=1)` is `h·k_cat·enzyme·substrate/(substrate+k_m·volume)`
with default `k_cat = 1`; this matches `michaelian_kinetics` in
src/nlisim/util.py.  Exact division is used here; it agrees with float
division whenever the denominator is nonzero, which holds at every input
the theorems below evaluate. -/
def saturable_rate (substrate enzyme k_m h volume : ℚ) : ℚ :=
  h * 1 * enzyme * substrate / (substrate + k_m * volume)

/-- Embeds `TAFC.advance` (src/nlisim/modulesv2/tafc.py, lines 51-141) on
one voxel of a state with no alive A. fumigatus cells (the fungal loop,
lines 108-131, then touches nothing).  `h` is `self.time_step / 60`,
`trnvr_rt` the scalar degradation factor the source obtains from
`turnover_rate(x=1, x_system=0, ...)` (an `exp(-r·t)` value).  Note the
bound-enforcement step uses `np.maximum(rel, 1.0)` (line 85), exactly as
the source does. -/
def tafc_advance_voxel (s : TAFCVoxel) (k_m_tf_tafc voxel_volume h trnvr_rt : ℚ) :
    TAFCVoxel :=
  -- interaction with transferrin
  let dfe2dt := saturable_rate s.tfFe2 s.tafc k_m_tf_tafc h voxel_volume
  let dfedt := saturable_rate s.tfFe s.tafc k_m_tf_tafc h voxel_volume
  -- "enforce bounds from TAFC quantity"
  let total_change := dfe2dt + dfedt
  let rel0 := s.tafc / total_change
  let rel1 := if total_change = 0 then 0 else rel0
  let rel := max rel1 1
  let dfe2dt1 := dfe2dt * rel
  let dfedt1 := dfedt * rel
  let tfFe2' := s.tfFe2 - dfe2dt1
  let tfFe' := s.tfFe + dfe2dt1 - dfedt1
  let tf' := s.tf + dfedt1
  let tafc1 := s.tafc - (dfe2dt1 + dfedt1)
  let tafcbi1 := s.tafcbi + (dfe2dt1 + dfedt1)
  -- interaction with iron: all available iron is bound to TAFC
  let potential_reactive_quantity := min s.iron tafc1
  let tafc2 := tafc1 - potential_reactive_quantity
  let tafcbi2 := tafcbi1 + potential_reactive_quantity
  let iron' := s.iron - potential_reactive_quantity
  -- interaction with fungus: no alive cells in the modelled state
  -- degrade TAFC
  { tafc := tafc2 * trnvr_rt
    tafcbi := tafcbi2 * trnvr_rt
    tfFe2 := tfFe2'
    tfFe := tfFe'
    tf := tf'
    iron := iron' }

/-! ## Chemotaxis (src/simulation/modules/phagocyte.py and macrophage.py) -/

/-- Embeds `logistic` (src/simulation/modules/phagocyte.py, line 138 and
macrophage.py, line 20): `1 - b * math.exp(-((x / l) ** 2))`. -/
noncomputable def logistic (x l b : ℝ) : ℝ := 1 - b * Real.exp (-((x / l) ^ 2))

/-- An agent as the chemotaxis code reads it: a continuous position
`(x, y, z)` and a life-cycle status (`DEAD = 7` in both the phagocyte and
macrophage status enums). -/
structure SimCell where
  point : ℚ × ℚ × ℚ
  status : ℕ
deriving DecidableEq

/-- Modelled from the spec: `CellList.alive()` (`simulation/cell.py` is
missing from the provided sources); per spec §4.5 it iterates the indices
whose status is not the terminal dead value (`Status.DEAD = 7`). -/
def SimCell.alive (c : SimCell) : Bool := decide (c.status ≠ 7)

/-- Modelled from the spec: the parts of `simulation.grid.RectangularGrid`
the chemotaxis code touches (`simulation/grid.py` is missing from the
provided sources).  Per spec §3/§4.1: `x`, `y`, `z` are per-axis voxel
representative coordinates, `xv`, `yv`, `zv` the axis vertex coordinate
arrays (their first/last entries are kept), `is_valid_voxel` is the
in-bounds test on integer voxel coordinates, and `get_voxel` locates the
voxel containing a point. -/
structure SimGrid where
  xCoord : ℤ → ℚ
  yCoord : ℤ → ℚ
  zCoord : ℤ → ℚ
  nx : ℕ
  ny : ℕ
  nz : ℕ
  xvLo : ℚ
  xvHi : ℚ
  yvLo : ℚ
  yvHi : ℚ
  zvLo : ℚ
  zvHi : ℚ
  getVoxel : ℚ × ℚ × ℚ → ℤ × ℤ × ℤ

/-- Modelled from the spec: in-bounds test on `(x, y, z)` voxel coordinates. -/
def SimGrid.isValidVoxel (g : SimGrid) (v : ℤ × ℤ × ℤ) : Bool :=
  decide (0 ≤ v.1 ∧ v.1 < (g.nx : ℤ) ∧ 0 ≤ v.2.1 ∧ v.2.1 < (g.ny : ℤ) ∧
    0 ≤ v.2.2 ∧ v.2.2 < (g.nz : ℤ))

/-- The 27 offsets `(x, y, z)` in the nesting order of the chemotaxis
loops: `for x in [0, 1, -1]: for y in [0, 1, -1]: for z in [0, 1, -1]`. -/
def offsets27 : List (ℤ × ℤ × ℤ) :=
  ([0, 1, -1] : List ℤ).flatMap fun x =>
    ([0, 1, -1] : List ℤ).flatMap fun y =>
      ([0, 1, -1] : List ℤ).map fun z => (x, y, z)

/-- Candidate weights computed by `PhagocyteCellList.chemotaxis`
(src/simulation/modules/phagocyte.py, lines 97-117) for one agent: each of
the 27 offsets gets `logistic(molecule[zk,yj,xi], drift_lambda, drift_bias)`
when the offset voxel is in bounds and its tissue type is one of
SURFACTANT, BLOOD, EPITHELIUM, PORE, else `0`.  `tissue` and `molecule` are
indexed `[z][y][x]` like the source arrays. -/
noncomputable def phagocyte_weights (g : SimGrid) (tissue : ℤ → ℤ → ℤ → ℕ)
    (molecule : ℤ → ℤ → ℤ → ℝ) (drift_lambda drift_bias : ℝ)
    (vox : ℤ × ℤ × ℤ) : List ℝ :=
  offsets27.map fun o =>
    let xi := vox.1 + o.1
    let yj := vox.2.1 + o.2.1
    let zk := vox.2.2 + o.2.2
    if g.isValidVoxel (xi, yj, zk) ∧ tissue zk yj xi ∈ [4, 1, 3, 5] then
      logistic (molecule zk yj xi) drift_lambda drift_bias
    else 0

/-- Embeds the per-agent body of `PhagocyteCellList.chemotaxis`
(src/simulation/modules/phagocyte.py, lines 84-135) for an alive agent:
weights over the 27 offsets, normalization when the total is truthy
(nonzero), then first-match selection of the index whose cumulative
probability reaches `prob`; on selection the position is set to the chosen
voxel's representative coordinates `grid.x[...], grid.y[...], grid.z[...]`;
if no index is selected the agent is unchanged. -/
noncomputable def phagocyte_chemotaxis_one (g : SimGrid)
    (tissue : ℤ → ℤ → ℤ → ℕ) (molecule : ℤ → ℤ → ℤ → ℝ)
    (drift_lambda drift_bias : ℝ) (prob : ℝ) (c : SimCell) : SimCell :=
  let vox := g.getVoxel c.point
  let p := phagocyte_weights g tissue molecule drift_lambda drift_bias vox
  let pTot := p.sum
  let pn := if pTot ≠ 0 then p.map (fun q => q / pTot) else p
  match (cumsumFrom 0 pn).findIdx? (fun cp => decide (prob ≤ cp)) with
  | none => c
  | some i =>
      let o := offsets27.getD i (0, 0, 0)
      { c with
        point := (g.xCoord (vox.1 + o.1), g.yCoord (vox.2.1 + o.2.1),
          g.zCoord (vox.2.2 + o.2.2)) }

/-- Embeds the full `PhagocyteCellList.chemotaxis` loop
(src/simulation/modules/phagocyte.py, lines 72-135): iterate the agents;
each alive agent draws the next value of the random stream
(`prob = random.random()` inside the loop) and moves independently. -/
noncomputable def phagocyte_chemotaxis (g : SimGrid)
    (tissue : ℤ → ℤ → ℤ → ℕ) (molecule : ℤ → ℤ → ℤ → ℝ)
    (drift_lambda drift_bias : ℝ) :
    List SimCell → (ℕ → ℝ) → List SimCell
  | [], _ => []
  | c :: cs, draws =>
      if c.alive then
        phagocyte_chemotaxis_one g tissue molecule drift_lambda drift_bias
            (draws 0) c ::
          phagocyte_chemotaxis g tissue molecule drift_lambda drift_bias cs
            (fun k => draws (k + 1))
      else
        c :: phagocyte_chemotaxis g tissue molecule drift_lambda drift_bias cs draws

/-- Number of alive agents strictly before index `i`: the position in the
random stream of the draw that agent `i` consumes. -/
def aliveCountBefore (cells : List SimCell) (i : ℕ) : ℕ :=
  ((cells.take i).filter SimCell.alive).length

/-- Inner `z` loop of the module-level `chemotaxis` in
src/simulation/modules/macrophage.py (lines 248-270).  The source rebinds
the loop variables (`z = vox.z + z; y = vox.y + y; x = vox.x + x`), so the
current `x`, `y` values are threaded through the iterations; each element
pairs the appended `vox_list` entry `[x, y, z]` (pre-rebinding values) with
the `(x, y, z)` coordinates actually examined after rebinding. -/
def macro_z_loop (vox : ℤ × ℤ × ℤ) (x y : ℤ) :
    List ℤ → List ((ℤ × ℤ × ℤ) × (ℤ × ℤ × ℤ)) × (ℤ × ℤ)
  | [] => ([], (x, y))
  | zi :: rest =>
      let entry := ((x, y, zi), (vox.1 + x, vox.2.1 + y, vox.2.2 + zi))
      let (tl, xy) := macro_z_loop vox (vox.1 + x) (vox.2.1 + y) rest
      (entry :: tl, xy)

/-- Middle `y` loop of the macrophage `chemotaxis`: `y` is reset by the
iterator at each iteration, the rebound `x` persists. -/
def macro_y_loop (vox : ℤ × ℤ × ℤ) (x : ℤ) :
    List ℤ → List ((ℤ × ℤ × ℤ) × (ℤ × ℤ × ℤ)) × ℤ
  | [] => ([], x)
  | yi :: rest =>
      let (es, xy) := macro_z_loop vox x yi [0, 1, -1]
      let (tl, xfin) := macro_y_loop vox xy.1 rest
      (es ++ tl, xfin)

/-- Outer `x` loop of the macrophage `chemotaxis`: `x` is reset by the
iterator at each iteration. -/
def macro_x_loop (vox : ℤ × ℤ × ℤ) :
    List ℤ → List ((ℤ × ℤ × ℤ) × (ℤ × ℤ × ℤ))
  | [] => []
  | xi :: rest =>
      let (es, _) := macro_y_loop vox xi [0, 1, -1]
      es ++ macro_x_loop vox rest

/-- The 27 `(vox_list entry, examined coordinates)` pairs produced by the
macrophage chemotaxis loops for a given agent voxel. -/
def macro_candidates (vox : ℤ × ℤ × ℤ) :
    List ((ℤ × ℤ × ℤ) × (ℤ × ℤ × ℤ)) :=
  macro_x_loop vox [0, 1, -1]

/-- Candidate weights of the macrophage `chemotaxis`
(src/simulation/modules/macrophage.py, lines 253-270): bounds are checked
against the first/last vertex coordinates (`grid.xv[0] <= x <= grid.xv[-1]`
etc.); the tissue test `in [SURFACTANT.value or BLOOD.value or
EPITHELIUM.value or PORE.value]` evaluates the `or` chain first, so the
list is `[SURFACTANT.value] = [4]` and only tissue `4` passes. -/
noncomputable def macro_weights (g : SimGrid) (tissue : ℤ → ℤ → ℤ → ℕ)
    (molecule : ℤ → ℤ → ℤ → ℝ) (drift_lambda drift_bias : ℝ)
    (vox : ℤ × ℤ × ℤ) : List ℝ :=
  (macro_candidates vox).map fun e =>
    let ex : ℤ := e.2.1
    let ey : ℤ := e.2.2.1
    let ez : ℤ := e.2.2.2
    if g.xvLo ≤ (ex : ℚ) ∧ (ex : ℚ) ≤ g.xvHi ∧ g.yvLo ≤ (ey : ℚ) ∧
        (ey : ℚ) ≤ g.yvHi ∧ g.zvLo ≤ (ez : ℚ) ∧ (ez : ℚ) ≤ g.zvHi then
      if tissue ez ey ex = 4 then logistic (molecule ez ey ex) drift_lambda drift_bias
      else 0
    else 0

/-- Embeds the per-agent body of the module-level `chemotaxis` in
src/simulation/modules/macrophage.py (lines 233-288): same normalization
and first-match selection as the phagocyte version, but on selection the
position is displaced by the chosen `vox_list` entry
(`cell['point'] + Point(...)`). -/
noncomputable def macrophage_chemotaxis_one (g : SimGrid)
    (tissue : ℤ → ℤ → ℤ → ℕ) (molecule : ℤ → ℤ → ℤ → ℝ)
    (drift_lambda drift_bias : ℝ) (prob : ℝ) (c : SimCell) : SimCell :=
  let vox := g.getVoxel c.point
  let p := macro_weights g tissue molecule drift_lambda drift_bias vox
  let pTot := p.sum
  let pn := if pTot ≠ 0 then p.map (fun q => q / pTot) else p
  match (cumsumFrom 0 pn).findIdx? (fun cp => decide (prob ≤ cp)) with
  | none => c
  | some i =>
      let o := ((macro_candidates vox).getD i ((0, 0, 0), (0, 0, 0))).1
      { c with
        point := (c.point.1 + (o.1 : ℚ), c.point.2.1 + (o.2.1 : ℚ),
          c.point.2.2 + (o.2.2 : ℚ)) }

/-- Embeds the module-level `chemotaxis` of
src/simulation/modules/macrophage.py (lines 220-288): `prob` is a
parameter of the function, so every alive agent in the call is processed
with this one value. -/
noncomputable def macrophage_chemotaxis (g : SimGrid)
    (tissue : ℤ → ℤ → ℤ → ℕ) (molecule : ℤ → ℤ → ℤ → ℝ)
    (drift_lambda drift_bias : ℝ) (prob : ℝ) (cells : List SimCell) :
    List SimCell :=
  cells.map fun c =>
    if c.alive then
      macrophage_chemotaxis_one g tissue molecule drift_lambda drift_bias prob c
    else c

/-- Embeds the chemotaxis step of `Macrophage.advance`
(src/simulation/modules/macrophage.py, lines 137-145): the call site draws
`random.random()` once and passes it as `prob`, so the head of the random
stream is shared by all agents of the call. -/
noncomputable def macrophage_advance_chemotaxis (g : SimGrid)
    (tissue : ℤ → ℤ → ℤ → ℕ) (molecule : ℤ → ℤ → ℤ → ℝ)
    (drift_lambda drift_bias : ℝ) (cells : List SimCell) (draws : ℕ → ℝ) :
    List SimCell :=
  macrophage_chemotaxis g tissue molecule drift_lambda drift_bias (draws 0) cells

/-- The behavior asserted by the spec for the macrophage chemotaxis call,
stated in the spec's words for comparison with the code: "each living
agent's move is selected using one uniform random value drawn independently
for that agent" — i.e. every alive agent consumes the next value of the
random stream. -/
noncomputable def macrophage_fresh_draw_chemotaxis (g : SimGrid)
    (tissue : ℤ → ℤ → ℤ → ℕ) (molecule : ℤ → ℤ → ℤ → ℝ)
    (drift_lambda drift_bias : ℝ) :
    List SimCell → (ℕ → ℝ) → List SimCell
  | [], _ => []
  | c :: cs, draws =>
      if c.alive then
        macrophage_chemotaxis_one g tissue molecule drift_lambda drift_bias
            (draws 0) c ::
          macrophage_fresh_draw_chemotaxis g tissue molecule drift_lambda
            drift_bias cs (fun k => draws (k + 1))
      else
        c :: macrophage_fresh_draw_chemotaxis g tissue molecule drift_lambda
          drift_bias cs draws

/-- A concrete 1×1×1 grid with unit spacing, for witness instantiations. -/
def gridUnit : RectangularGrid :=
  ⟨1, 1, 1, fun _ _ _ => 1, fun _ _ _ => 1, fun _ _ _ => 1⟩

/-- The all-true mask on a grid. -/
def maskAll : ℕ → ℕ → ℕ → Bool := fun _ _ _ => true

/-- The all-false mask on a grid. -/
def maskNone : ℕ → ℕ → ℕ → Bool := fun _ _ _ => false

/-- A concrete one-voxel sim grid (unit vertex range, voxel representative
coordinates the integer casts, every point located in voxel `(0,0,0)`). -/
def simGridUnit : SimGrid :=
  { xCoord := fun i => (i : ℚ), yCoord := fun i => (i : ℚ), zCoord := fun i => (i : ℚ)
    nx := 1, ny := 1, nz := 1
    xvLo := 0, xvHi := 1, yvLo := 0, yvHi := 1, zvLo := 0, zvHi := 1
    getVoxel := fun _ => (0, 0, 0) }

/-- A tissue field that is AIR (type `0`) everywhere: no movement target. -/
def tissueAir : ℤ → ℤ → ℤ → ℕ := fun _ _ _ => 0

/-- A tissue field that is SURFACTANT (type `4`) everywhere. -/
def tissueSurf : ℤ → ℤ → ℤ → ℕ := fun _ _ _ => 4

/-- The identically-zero molecule field. -/
def molZero : ℤ → ℤ → ℤ → ℝ := fun _ _ _ => 0

/-- A living agent at the interior point `(1/2, 1/2, 1/2)` of voxel `(0,0,0)`. -/
def cellHalf : SimCell := ⟨(1/2, 1/2, 1/2), 0⟩

/-- A dead agent (terminal status `7`). -/
def cellDead : SimCell := ⟨(0, 0, 0), 7⟩

/-- A random stream whose first draw is `1/10` and later draws `9/10`. -/
noncomputable def drawsLowHigh : ℕ → ℝ := fun k => if k = 0 then 1 / 10 else 9 / 10

/-! ## Helper lemmas -/

section FVLemmas

variable {α : Type} [LinearOrderedField α]

theorem FV.fin_add (a b : α) : (FV.fin a + FV.fin b : FV α) = FV.fin (a + b) := rfl

theorem FV.fin_mul (a b : α) : (FV.fin a * FV.fin b : FV α) = FV.fin (a * b) := rfl

theorem FV.fin_mul_nan (a : α) : (FV.fin a * FV.nan : FV α) = FV.nan := rfl

theorem FV.fin_sub_nan (a : α) : (FV.fin a - FV.nan : FV α) = FV.nan := rfl

theorem FV.fin_div (a b : α) (hb : b ≠ 0) :
    (FV.fin a / FV.fin b : FV α) = FV.fin (a / b) := by
  show FV.div _ _ = _
  unfold FV.div
  simp [hb]

theorem FV.zero_div_zero : (FV.fin (0 : α) / FV.fin (0 : α) : FV α) = FV.nan := by
  show FV.div _ _ = _
  unfold FV.div
  simp

end FVLemmas

/-! ## Claim theorems -/

/-- C5, counterexample: with `x_system = 0`, `turnover_rate` does not return
`0` at an entry where `x == 0` — it returns `exp(-r·t)` there too (the
source returns `np.full(...)` before the `x == 0` special case is ever
applied). -/
theorem C5_counterexample :
    turnover_rate (fun _ : Fin 1 => (0 : ℝ)) 0 1 1 0 ≠ 0 := by
  unfold turnover_rate
  simp [Real.exp_ne_zero]

/-- C5 (amended): with `x_system = 0`, `turnover_rate` returns the constant
`exp(-base_turnover_rate · rel_cyt_bind_unit_t)` at every entry, including
the entries where `x == 0`; the zeroing of `x == 0` entries happens only in
the `x_system ≠ 0` branch. -/
theorem C5_amended {n : ℕ} (x : Fin n → ℝ) (r t : ℝ) (i : Fin n) :
    turnover_rate x 0 r t i = Real.exp (-r * t) := by
  simp [turnover_rate]

/-- C2, counterexample: for `L = [[2]]`, `D = 1`, `dt = 1`, the first
operator produced by `assemble_mesh_laplacian_crank_nicholson` is
`I + (D·dt/2)L = [[2]]`, not the `A = I - (D·dt/2)L = [[0]]` that
`apply_grid_diffusion` builds, so the precomputed pair is not the claimed
`(A, B)` pair. -/
theorem C2_counterexample :
    (assemble_mesh_laplacian_crank_nicholson (n := 1) (fun _ _ => 2) 1 1).1 ≠
      grid_cn_a (n := 1) (fun _ _ => 2) 1 1 := by
  intro h
  have h0 := congrFun (congrFun h 0) 0
  simp [assemble_mesh_laplacian_crank_nicholson, grid_cn_a, Matrix.add_apply,
    Matrix.sub_apply, Matrix.smul_apply, Matrix.one_apply] at h0

/-- C2 (amended): for every Laplacian `L`, diffusivity `D` and time step
`dt`, `assemble_mesh_laplacian_crank_nicholson` produces exactly the pair
of the one-shot apply with the roles of `A` and `B` swapped:
its first operator is the one-shot `B = I + (D·dt/2)L` and its second is
the one-shot `A = I - (D·dt/2)L`. -/
theorem C2_amended {n : ℕ} (L : Matrix (Fin n) (Fin n) ℚ) (D dt : ℚ) :
    assemble_mesh_laplacian_crank_nicholson L D dt =
      (grid_cn_b L D dt, grid_cn_a L D dt) := by
  have hc : ((1 : ℚ) / 2) * dt * D = D * dt / 2 := by ring
  simp only [assemble_mesh_laplacian_crank_nicholson, grid_cn_a, grid_cn_b]
  rw [hc]

/-- C1, counterexample: a positive conjugate-gradient `info` signal makes
`apply_grid_diffusion` raise (`raise Exception(...)`, modelled as
`Except.error`), so the one-shot grid apply is not recoverable. -/
theorem C1_counterexample :
    apply_grid_diffusion ![(1 : ℚ)] ⟨![1], 1⟩ =
      Except.error "CG failed (after positive-info iterations)" := rfl

/-- C1 (amended): the precomputed-operator mesh step is recoverable for
both signals — it never raises, writes the clipped best-effort solver
result into the caller's buffer, and logs a warning on positive `info` and
an error on negative `info`; the one-shot grid apply instead raises an
exception on every nonzero `info`. -/
theorem C1_amended {n : ℕ} (v : Fin n → ℚ) (cg : CGResult n) :
    (apply_mesh_diffusion_crank_nicholson v cg).1 = (fun i => max 0 (cg.x i)) ∧
      (0 < cg.info →
        CGLog.convergenceWarning cg.info ∈ (apply_mesh_diffusion_crank_nicholson v cg).2) ∧
      (cg.info < 0 →
        CGLog.breakdownError ∈ (apply_mesh_diffusion_crank_nicholson v cg).2) ∧
      (cg.info ≠ 0 → ∃ msg, apply_grid_diffusion v cg = Except.error msg) := by
  refine ⟨?_, ?_, ?_, ?_⟩
  · by_cases hneg : ∃ i, cg.x i < 0
    · simp [apply_mesh_diffusion_crank_nicholson, hneg]
    · have hneg' : ∀ i, 0 ≤ cg.x i := by
        intro i
        by_contra hi
        exact hneg ⟨i, lt_of_not_le hi⟩
      simp [apply_mesh_diffusion_crank_nicholson, hneg]
      funext i
      exact (max_eq_right (hneg' i)).symm
  · intro hpos
    have h0 : cg.info ≠ 0 := by omega
    simp [apply_mesh_diffusion_crank_nicholson, h0, hpos]
  · intro hneg0
    have h0 : cg.info ≠ 0 := by omega
    have hpos : ¬ 0 < cg.info := by omega
    simp [apply_mesh_diffusion_crank_nicholson, h0, hpos]
  · intro h0
    rcases lt_or_gt_of_ne h0 with hlt | hgt
    · have hpos : ¬ 0 < cg.info := by omega
      exact ⟨"CG failed (negative info)",
        by simp [apply_grid_diffusion, hpos, hlt]⟩
    · exact ⟨"CG failed (after positive-info iterations)",
        by simp [apply_grid_diffusion, hgt]⟩

/-- C1 witness: the amended theorem at a concrete non-converged call
(`info = 1`, one negative solver entry). -/
theorem C1_witness :
    CGLog.convergenceWarning 1 ∈
        (apply_mesh_diffusion_crank_nicholson ![(3 : ℚ)] ⟨![-2], 1⟩).2 ∧
      (∃ msg, apply_grid_diffusion ![(3 : ℚ)] ⟨![-2], 1⟩ = Except.error msg) :=
  ⟨(C1_amended ![(3 : ℚ)] ⟨![-2], 1⟩).2.1 (by norm_num),
   (C1_amended ![(3 : ℚ)] ⟨![-2], 1⟩).2.2.2 (by norm_num)⟩

/-- C10: the one-shot grid apply leaves the caller's array unchanged (its
body never writes `variable` in place) and returns the clipped solver
result as a fresh value, while the mesh step overwrites the caller's buffer
(`np.copyto`): at a concrete input the post-call mesh buffer differs from
the input. -/
theorem C10_frame :
    (∀ (n : ℕ) (v : Fin n → ℚ) (cg : CGResult n),
        (apply_grid_diffusion_run v cg).2 = v) ∧
      (apply_grid_diffusion_run ![(5 : ℚ)] ⟨![7], 0⟩).1 = Except.ok ![(7 : ℚ)] ∧
      (apply_mesh_diffusion_crank_nicholson ![(5 : ℚ)] ⟨![7], 0⟩).1 ≠ ![(5 : ℚ)] := by
  refine ⟨fun n v cg => rfl, ?_, ?_⟩
  · show apply_grid_diffusion ![(5 : ℚ)] ⟨![7], 0⟩ = _
    unfold apply_grid_diffusion
    norm_num
    funext i
    fin_cases i <;> norm_num
  · intro h
    have h0 := congrFun h 0
    unfold apply_mesh_diffusion_crank_nicholson at h0
    norm_num at h0

/-- C7, counterexample: with `p1 = p2 = 0`, `p3 = 2`, `iron = [1]`,
`tf = [0]`, `tf_fe = [1]`, the returned fraction is `4/(2 + 1e-50) > 1`:
the result is not clamped into `[0, 1]` (only the intermediate relative
iron is; the final value is only clamped below by `0`). -/
theorem C7_counterexample :
    1 < iron_tf_reaction (n := 1) ![1] ![0] ![1] 0 0 2 0 := by
  unfold iron_tf_reaction EPSILON
  norm_num

/-- C7 (amended): the competitive-binding fraction returned by
`iron_tf_reaction` is non-negative at every entry and equals `0` at every
entry where the total binding sites `2*(tf + tf_fe)` are zero; but it is
not in general bounded above by `1`. -/
theorem C7_amended {n : ℕ} (iron tf tf_fe : Fin n → ℚ) (p1 p2 p3 : ℚ)
    (i : Fin n) :
    0 ≤ iron_tf_reaction iron tf tf_fe p1 p2 p3 i ∧
      (2 * (tf i + tf_fe i) = 0 → iron_tf_reaction iron tf tf_fe p1 p2 p3 i = 0) := by
  constructor
  · simp only [iron_tf_reaction]
    split_ifs with h1 h2
    · exact le_refl 0
    · exact le_refl 0
    · exact le_max_left 0 _
  · intro h
    simp [iron_tf_reaction, h]

/-- C7 witness: the amended theorem at a concrete zero-binding-site entry. -/
theorem C7_witness :
    0 ≤ iron_tf_reaction (n := 1) ![3] ![0] ![0] 1 1 1 0 ∧
      iron_tf_reaction (n := 1) ![3] ![0] ![0] 1 1 1 0 = 0 :=
  ⟨(C7_amended ![3] ![0] ![0] 1 1 1 0).1,
   (C7_amended ![3] ![0] ![0] 1 1 1 0).2 (by norm_num)⟩

/-- C6, counterexample: `michaelian_kinetics` is not safe at
`substrate = 0`, `volume = 0`: the unguarded division is `0/0`, which is
NaN, not the claimed defined value resolved to zero. -/
theorem C6_counterexample :
    michaelian_kinetics 0 1 1 1 1 0 = FV.nan := by
  unfold michaelian_kinetics
  rw [FV.fin_mul, FV.fin_mul, FV.fin_mul, FV.fin_mul, FV.fin_add]
  have h1 : (1 : ℚ) * 1 * 1 * 0 = 0 := by norm_num
  have h2 : (0 : ℚ) + 1 * 0 = 0 := by norm_num
  rw [h1, h2]
  exact FV.zero_div_zero

/-- C6 (amended): the kinetics primitives are safe only away from a zero
denominator.  `michaelian_kinetics` with non-negative inputs returns the
defined non-negative value `h·k_cat·enzyme·substrate/(substrate+k_m·volume)`
whenever `substrate + k_m·volume ≠ 0` (zero when `substrate = 0`), but
returns NaN when `substrate + k_m·volume = 0`; `activation_function`
likewise returns NaN at `x = 0`, `volume = 0`. -/
theorem C6_amended (s e k_m h k_cat vol : ℚ) (k_d hh b : ℝ)
    (hs : 0 ≤ s) (he : 0 ≤ e) (hm : 0 ≤ k_m) (hh0 : 0 ≤ h)
    (hc : 0 ≤ k_cat) (hv : 0 ≤ vol) :
    (s + k_m * vol ≠ 0 →
        michaelian_kinetics s e k_m h k_cat vol =
            FV.fin (h * k_cat * e * s / (s + k_m * vol)) ∧
          0 ≤ h * k_cat * e * s / (s + k_m * vol) ∧
          (s = 0 → h * k_cat * e * s / (s + k_m * vol) = 0)) ∧
      (s + k_m * vol = 0 →
        michaelian_kinetics s e k_m h k_cat vol = FV.nan) ∧
      (k_d ≠ 0 → activation_function 0 k_d hh 0 b = FV.nan) := by
  refine ⟨?_, ?_, ?_⟩
  · intro hden
    refine ⟨?_, ?_, ?_⟩
    · unfold michaelian_kinetics
      rw [FV.fin_mul, FV.fin_mul, FV.fin_mul, FV.fin_mul, FV.fin_add,
        FV.fin_div _ _ hden]
    · have hden' : 0 < s + k_m * vol :=
        lt_of_le_of_ne (by positivity) (Ne.symm hden)
      positivity
    · intro hs0
      simp [hs0]
  · intro hden
    have hs0 : s = 0 := by nlinarith [mul_nonneg hm hv]
    have hnum : h * k_cat * e * s = 0 := by rw [hs0, mul_zero]
    unfold michaelian_kinetics
    rw [FV.fin_mul, FV.fin_mul, FV.fin_mul, FV.fin_mul, FV.fin_add]
    rw [hnum, hden]
    exact FV.zero_div_zero
  · intro hkd
    unfold activation_function
    rw [FV.fin_div _ _ hkd, zero_div, FV.zero_div_zero]
    rfl

/-- C6 witness: the amended theorem at concrete safe and unsafe inputs. -/
theorem C6_witness :
    michaelian_kinetics 2 1 1 1 1 1 = FV.fin ((1 * 1 * 1 * 2) / (2 + 1 * 1)) ∧
      activation_function 0 1 1 0 1 = FV.nan :=
  ⟨((C6_amended 2 1 1 1 1 1 1 1 1 (by norm_num) (by norm_num) (by norm_num)
      (by norm_num) (by norm_num) (by norm_num)).1 (by norm_num)).1,
   (C6_amended 2 1 1 1 1 1 1 1 1 (by norm_num) (by norm_num) (by norm_num)
      (by norm_num) (by norm_num) (by norm_num)).2.2 (by norm_num)⟩

section LaplacianLemmas

theorem applyStencil_nil (M : ℕ × ℕ → ℚ) (vi : ℕ) : applyStencil M vi [] = M := rfl

theorem applyStencil_cons (M : ℕ × ℕ → ℚ) (vi : ℕ) (p : ℕ × ℚ) (t : List (ℕ × ℚ)) :
    applyStencil M vi (p :: t) = applyStencil (stencilUpdate M vi p.1 p.2) vi t := rfl

theorem rowSum_dokAdd (M : ℕ × ℕ → ℚ) (r c : ℕ) (v : ℚ) (N ρ : ℕ) (hc : c < N) :
    rowSum (dokAdd M r c v) N ρ = rowSum M N ρ + if ρ = r then v else 0 := by
  unfold rowSum dokAdd
  by_cases hρ : ρ = r
  · subst hρ
    rw [if_pos rfl]
    have h1 : ∀ c' ∈ Finset.range N,
        (if ((ρ, c') : ℕ × ℕ) = (ρ, c) then M (ρ, c') + v else M (ρ, c'))
          = M (ρ, c') + (if c' = c then v else 0) := by
      intro c' _
      by_cases h : c' = c
      · simp [h]
      · simp [h, Prod.ext_iff]
    rw [Finset.sum_congr rfl h1, Finset.sum_add_distrib,
      Finset.sum_ite_eq' (Finset.range N) c (fun _ => v),
      if_pos (Finset.mem_range.mpr hc)]
  · rw [if_neg hρ, add_zero]
    apply Finset.sum_congr rfl
    intro c' _
    rw [if_neg]
    intro h
    exact hρ (congrArg Prod.fst h)

theorem dokAdd_other_row (M : ℕ × ℕ → ℚ) (r c : ℕ) (v : ℚ) (ρ c' : ℕ)
    (hρ : ρ ≠ r) : dokAdd M r c v (ρ, c') = M (ρ, c') := by
  unfold dokAdd
  rw [if_neg]
  intro h
  exact hρ (congrArg Prod.fst h)

theorem rowSum_stencilUpdate (M : ℕ × ℕ → ℚ) (vi ni : ℕ) (w : ℚ) (N ρ : ℕ)
    (hvi : vi < N) (hni : ni < N) :
    rowSum (stencilUpdate M vi ni w) N ρ = rowSum M N ρ := by
  unfold stencilUpdate
  rw [rowSum_dokAdd _ _ _ _ _ _ hni, rowSum_dokAdd _ _ _ _ _ _ hvi]
  by_cases h : ρ = vi
  · rw [if_pos h, if_pos h]
    ring
  · rw [if_neg h, if_neg h, add_zero, add_zero]

theorem stencilUpdate_other_row (M : ℕ × ℕ → ℚ) (vi ni : ℕ) (w : ℚ) (ρ c : ℕ)
    (hρ : ρ ≠ vi) : stencilUpdate M vi ni w (ρ, c) = M (ρ, c) := by
  unfold stencilUpdate
  rw [dokAdd_other_row _ _ _ _ _ _ hρ, dokAdd_other_row _ _ _ _ _ _ hρ]

theorem rowSum_applyStencil (vi N ρ : ℕ) (l : List (ℕ × ℚ)) (M : ℕ × ℕ → ℚ)
    (hvi : vi < N) (hl : ∀ p ∈ l, p.1 < N) :
    rowSum (applyStencil M vi l) N ρ = rowSum M N ρ := by
  induction l generalizing M with
  | nil => rfl
  | cons p t ih =>
      rw [applyStencil_cons, ih _ (fun q hq => hl q (List.mem_cons_of_mem p hq)),
        rowSum_stencilUpdate _ _ _ _ _ _ hvi (hl p (List.mem_cons_self p t))]

theorem applyStencil_other_row (vi ρ c : ℕ) (l : List (ℕ × ℚ)) (M : ℕ × ℕ → ℚ)
    (hρ : ρ ≠ vi) : applyStencil M vi l (ρ, c) = M (ρ, c) := by
  induction l generalizing M with
  | nil => rfl
  | cons p t ih =>
      rw [applyStencil_cons, ih, stencilUpdate_other_row _ _ _ _ _ _ hρ]

theorem flattenedIndex_lt (g : RectangularGrid) (k j i : ℕ)
    (hk : k < g.zExtent) (hj : j < g.yExtent) (hi : i < g.xExtent) :
    g.flattenedIndex k j i < g.size := by
  unfold RectangularGrid.flattenedIndex RectangularGrid.size
  have h1 : (k * g.yExtent + j) * g.xExtent + i
      < (k * g.yExtent + j + 1) * g.xExtent := by
    have he : (k * g.yExtent + j + 1) * g.xExtent
        = (k * g.yExtent + j) * g.xExtent + g.xExtent := by ring
    rw [he]
    exact Nat.add_lt_add_left hi _
  have h2 : k * g.yExtent + j + 1 ≤ g.zExtent * g.yExtent := by
    have h3 : k * g.yExtent + j + 1 ≤ (k + 1) * g.yExtent := by
      have he : (k + 1) * g.yExtent = k * g.yExtent + g.yExtent := by ring
      rw [he]
      linarith
    exact h3.trans (Nat.mul_le_mul_right _ hk)
  exact h1.trans_le (Nat.mul_le_mul_right _ h2)

theorem mulAddLtCancel (a b i i' x : ℕ) (hi : i < x) (hi' : i' < x)
    (h : a * x + i = b * x + i') : a = b ∧ i = i' := by
  have hx : 0 < x := lt_of_le_of_lt (Nat.zero_le i) hi
  have e1 : (a * x + i) % x = i := by
    rw [mul_comm a x, Nat.mul_add_mod, Nat.mod_eq_of_lt hi]
  have e2 : (b * x + i') % x = i' := by
    rw [mul_comm b x, Nat.mul_add_mod, Nat.mod_eq_of_lt hi']
  have hii : i = i' := by rw [← e1, ← e2, h]
  refine ⟨?_, hii⟩
  have hab : a * x = b * x := by omega
  exact Nat.eq_of_mul_eq_mul_right hx hab

theorem flattenedIndex_inj (g : RectangularGrid) (k j i k' j' i' : ℕ)
    (hk : k < g.zExtent) (hj : j < g.yExtent) (hi : i < g.xExtent)
    (hk' : k' < g.zExtent) (hj' : j' < g.yExtent) (hi' : i' < g.xExtent)
    (h : g.flattenedIndex k j i = g.flattenedIndex k' j' i') :
    k = k' ∧ j = j' ∧ i = i' := by
  unfold RectangularGrid.flattenedIndex at h
  obtain ⟨h1, h2⟩ := mulAddLtCancel _ _ _ _ _ hi hi' h
  obtain ⟨h3, h4⟩ := mulAddLtCancel _ _ _ _ _ hj hj' h1
  exact ⟨h3, h4, h2⟩

theorem adjacentVoxels_mem_bounds (g : RectangularGrid) (k j i : ℕ)
    (nb : ℕ × ℕ × ℕ) (h : nb ∈ g.adjacentVoxels k j i) :
    nb.1 < g.zExtent ∧ nb.2.1 < g.yExtent ∧ nb.2.2 < g.xExtent := by
  unfold RectangularGrid.adjacentVoxels at h
  rw [List.mem_filterMap] at h
  obtain ⟨c, _, hc⟩ := h
  by_cases hcond : 0 ≤ c.1 ∧ c.1 < (g.zExtent : ℤ) ∧ 0 ≤ c.2.1 ∧
      c.2.1 < (g.yExtent : ℤ) ∧ 0 ≤ c.2.2 ∧ c.2.2 < (g.xExtent : ℤ)
  · rw [if_pos hcond, Option.some_inj] at hc
    subst hc
    obtain ⟨h1, h2, h3, h4, h5, h6⟩ := hcond
    refine ⟨?_, ?_, ?_⟩ <;> simp only [] <;> omega
  · rw [if_neg hcond] at hc
    exact absurd hc (Option.noConfusion)

theorem maskedVoxels_mem (g : RectangularGrid) (mask : ℕ → ℕ → ℕ → Bool)
    (v : ℕ × ℕ × ℕ) (h : v ∈ maskedVoxels g mask) :
    v.1 < g.zExtent ∧ v.2.1 < g.yExtent ∧ v.2.2 < g.xExtent ∧
      mask v.1 v.2.1 v.2.2 = true := by
  unfold maskedVoxels at h
  rw [List.mem_flatMap] at h
  obtain ⟨k, hk, h⟩ := h
  rw [List.mem_flatMap] at h
  obtain ⟨j, hj, h⟩ := h
  rw [List.mem_filterMap] at h
  obtain ⟨i, hi, h⟩ := h
  by_cases hm : mask k j i
  · rw [if_pos hm, Option.some_inj] at h
    subst h
    exact ⟨List.mem_range.mp hk, List.mem_range.mp hj, List.mem_range.mp hi, hm⟩
  · rw [if_neg hm] at h
    exact absurd h (Option.noConfusion)

theorem absNeighborContribs_bound (g : RectangularGrid)
    (mask : ℕ → ℕ → ℕ → Bool) (k j i : ℕ) (p : ℕ × ℚ)
    (h : p ∈ absNeighborContribs g mask k j i) : p.1 < g.size := by
  unfold absNeighborContribs at h
  rw [List.mem_filterMap] at h
  obtain ⟨nb, hnb, hp⟩ := h
  by_cases hm : mask nb.1 nb.2.1 nb.2.2
  · rw [if_pos hm, Option.some_inj] at hp
    obtain ⟨h1, h2, h3⟩ := adjacentVoxels_mem_bounds g k j i nb hnb
    subst hp
    exact flattenedIndex_lt g _ _ _ h1 h2 h3
  · rw [if_neg hm] at hp
    exact absurd hp (Option.noConfusion)

theorem perNeighborContribs_bound (g : RectangularGrid)
    (mask : ℕ → ℕ → ℕ → Bool) (k j i : ℕ)
    (hk : k < g.zExtent) (hj : j < g.yExtent) (hi : i < g.xExtent)
    (p : ℕ × ℚ) (h : p ∈ perNeighborContribs g mask k j i) : p.1 < g.size := by
  unfold perNeighborContribs at h
  rw [List.mem_filterMap] at h
  obtain ⟨d, _, hp⟩ := h
  dsimp only at hp
  have hz : (0 : ℤ) < (g.zExtent : ℤ) := by exact_mod_cast Nat.zero_lt_of_lt hk
  have hy : (0 : ℤ) < (g.yExtent : ℤ) := by exact_mod_cast Nat.zero_lt_of_lt hj
  have hx : (0 : ℤ) < (g.xExtent : ℤ) := by exact_mod_cast Nat.zero_lt_of_lt hi
  have hz1 : 0 ≤ ((k : ℤ) + d.1) % (g.zExtent : ℤ) := Int.emod_nonneg _ hz.ne'
  have hz2 : ((k : ℤ) + d.1) % (g.zExtent : ℤ) < (g.zExtent : ℤ) :=
    Int.emod_lt_of_pos _ hz
  have hy1 : 0 ≤ ((j : ℤ) + d.2.1) % (g.yExtent : ℤ) := Int.emod_nonneg _ hy.ne'
  have hy2 : ((j : ℤ) + d.2.1) % (g.yExtent : ℤ) < (g.yExtent : ℤ) :=
    Int.emod_lt_of_pos _ hy
  have hx1 : 0 ≤ ((i : ℤ) + d.2.2) % (g.xExtent : ℤ) := Int.emod_nonneg _ hx.ne'
  have hx2 : ((i : ℤ) + d.2.2) % (g.xExtent : ℤ) < (g.xExtent : ℤ) :=
    Int.emod_lt_of_pos _ hx
  by_cases hm : mask ((((k : ℤ) + d.1) % (g.zExtent : ℤ)).toNat)
      ((((j : ℤ) + d.2.1) % (g.yExtent : ℤ)).toNat)
      ((((i : ℤ) + d.2.2) % (g.xExtent : ℤ)).toNat)
  · rw [if_pos hm, Option.some_inj] at hp
    subst hp
    apply flattenedIndex_lt <;> omega
  · rw [if_neg hm] at hp
    exact absurd hp (Option.noConfusion)

theorem rowSum_buildFold (g : RectangularGrid)
    (contribs : ℕ × ℕ × ℕ → List (ℕ × ℚ)) (l : List (ℕ × ℕ × ℕ)) (ρ : ℕ)
    (M : ℕ × ℕ → ℚ)
    (hvi : ∀ v ∈ l, g.flattenedIndex v.1 v.2.1 v.2.2 < g.size)
    (hc : ∀ v ∈ l, ∀ p ∈ contribs v, p.1 < g.size) :
    rowSum
      (l.foldl
        (fun M' v => applyStencil M' (g.flattenedIndex v.1 v.2.1 v.2.2) (contribs v))
        M) g.size ρ = rowSum M g.size ρ := by
  induction l generalizing M with
  | nil => rfl
  | cons v t ih =>
      rw [List.foldl_cons,
        ih _ (fun u hu => hvi u (List.mem_cons_of_mem v hu))
          (fun u hu => hc u (List.mem_cons_of_mem v hu)),
        rowSum_applyStencil _ _ _ _ _ (hvi v (List.mem_cons_self v t))
          (hc v (List.mem_cons_self v t))]

theorem buildFold_other_row (g : RectangularGrid)
    (contribs : ℕ × ℕ × ℕ → List (ℕ × ℚ)) (l : List (ℕ × ℕ × ℕ)) (ρ c : ℕ)
    (M : ℕ × ℕ → ℚ)
    (hρ : ∀ v ∈ l, g.flattenedIndex v.1 v.2.1 v.2.2 ≠ ρ) :
    (l.foldl
      (fun M' v => applyStencil M' (g.flattenedIndex v.1 v.2.1 v.2.2) (contribs v))
      M) (ρ, c) = M (ρ, c) := by
  induction l generalizing M with
  | nil => rfl
  | cons v t ih =>
      rw [List.foldl_cons, ih _ (fun u hu => hρ u (List.mem_cons_of_mem v hu)),
        applyStencil_other_row _ _ _ _ _ (Ne.symm (hρ v (List.mem_cons_self v t)))]

theorem rowSum_dokZero (N ρ : ℕ) : rowSum dokZero N ρ = 0 := by
  simp [rowSum, dokZero]

end LaplacianLemmas

/-- C4: for every grid and boolean mask, every row of both built Laplacians
sums to zero over the `len(grid)` columns (equivalently, each diagonal entry
is the negative sum of its row's off-diagonal entries), and rows of
in-bounds voxels outside the mask are identically zero, for both the
absorbing-boundary and the periodic-boundary builders. -/
theorem C4_laplacian_row_sums (g : RectangularGrid) (mask : ℕ → ℕ → ℕ → Bool) :
    (∀ ρ, rowSum (discrete_laplacian g mask) g.size ρ = 0) ∧
      (∀ ρ, rowSum (periodic_discrete_laplacian g mask) g.size ρ = 0) ∧
      (∀ ρ, ρ < g.size →
        discrete_laplacian g mask (ρ, ρ) =
            -∑ c ∈ (Finset.range g.size).erase ρ, discrete_laplacian g mask (ρ, c) ∧
          periodic_discrete_laplacian g mask (ρ, ρ) =
            -∑ c ∈ (Finset.range g.size).erase ρ,
              periodic_discrete_laplacian g mask (ρ, c)) ∧
      (∀ k j i, k < g.zExtent → j < g.yExtent → i < g.xExtent →
        mask k j i = false →
        ∀ c, discrete_laplacian g mask (g.flattenedIndex k j i, c) = 0 ∧
          periodic_discrete_laplacian g mask (g.flattenedIndex k j i, c) = 0) := by
  have habs : ∀ ρ, rowSum (discrete_laplacian g mask) g.size ρ = 0 := by
    intro ρ
    unfold discrete_laplacian
    rw [rowSum_buildFold g (fun v => absNeighborContribs g mask v.1 v.2.1 v.2.2)]
    · exact rowSum_dokZero _ _
    · intro v hv
      obtain ⟨h1, h2, h3, _⟩ := maskedVoxels_mem g mask v hv
      exact flattenedIndex_lt g _ _ _ h1 h2 h3
    · intro v _ p hp
      exact absNeighborContribs_bound g mask _ _ _ p hp
  have hper : ∀ ρ, rowSum (periodic_discrete_laplacian g mask) g.size ρ = 0 := by
    intro ρ
    unfold periodic_discrete_laplacian
    rw [rowSum_buildFold g (fun v => perNeighborContribs g mask v.1 v.2.1 v.2.2)]
    · exact rowSum_dokZero _ _
    · intro v hv
      obtain ⟨h1, h2, h3, _⟩ := maskedVoxels_mem g mask v hv
      exact flattenedIndex_lt g _ _ _ h1 h2 h3
    · intro v hv p hp
      obtain ⟨h1, h2, h3, _⟩ := maskedVoxels_mem g mask v hv
      exact perNeighborContribs_bound g mask _ _ _ h1 h2 h3 p hp
  refine ⟨habs, hper, ?_, ?_⟩
  · intro ρ hρ
    have hmem : ρ ∈ Finset.range g.size := Finset.mem_range.mpr hρ
    constructor
    · have he := Finset.add_sum_erase (Finset.range g.size)
        (fun c => discrete_laplacian g mask (ρ, c)) hmem
      have h0 := habs ρ
      unfold rowSum at h0
      linarith
    · have he := Finset.add_sum_erase (Finset.range g.size)
        (fun c => periodic_discrete_laplacian g mask (ρ, c)) hmem
      have h0 := hper ρ
      unfold rowSum at h0
      linarith
  · intro k j i hk hj hi hmask c
    have hrow : ∀ v ∈ maskedVoxels g mask,
        g.flattenedIndex v.1 v.2.1 v.2.2 ≠ g.flattenedIndex k j i := by
      intro v hv heq
      obtain ⟨h1, h2, h3, h4⟩ := maskedVoxels_mem g mask v hv
      obtain ⟨e1, e2, e3⟩ := flattenedIndex_inj g _ _ _ _ _ _ h1 h2 h3 hk hj hi heq
      rw [e1, e2, e3] at h4
      rw [h4] at hmask
      exact absurd hmask (by simp)
    constructor
    · unfold discrete_laplacian
      rw [buildFold_other_row g (fun v => absNeighborContribs g mask v.1 v.2.1 v.2.2)
        _ _ _ _ hrow]
      rfl
    · unfold periodic_discrete_laplacian
      rw [buildFold_other_row g (fun v => perNeighborContribs g mask v.1 v.2.1 v.2.2)
        _ _ _ _ hrow]
      rfl

/-- C4 witness: the theorem at the concrete 1×1×1 unit grid, once with the
all-true mask for the row sums and once with the all-false mask for the
unmasked-row clause. -/
theorem C4_witness :
    rowSum (discrete_laplacian gridUnit maskAll) gridUnit.size 0 = 0 ∧
      rowSum (periodic_discrete_laplacian gridUnit maskAll) gridUnit.size 0 = 0 ∧
      discrete_laplacian gridUnit maskNone (gridUnit.flattenedIndex 0 0 0, 0) = 0 ∧
      periodic_discrete_laplacian gridUnit maskNone (gridUnit.flattenedIndex 0 0 0, 0) = 0 :=
  ⟨(C4_laplacian_row_sums gridUnit maskAll).1 0,
   (C4_laplacian_row_sums gridUnit maskAll).2.1 0,
   ((C4_laplacian_row_sums gridUnit maskNone).2.2.2 0 0 0
      (by norm_num [gridUnit]) (by norm_num [gridUnit]) (by norm_num [gridUnit])
      (by rfl) 0).1,
   ((C4_laplacian_row_sums gridUnit maskNone).2.2.2 0 0 0
      (by norm_num [gridUnit]) (by norm_num [gridUnit]) (by norm_num [gridUnit])
      (by rfl) 0).2⟩

/-- C3: evaluation of the embedded `TAFC.advance` at the failing input
(per-voxel `TAFC = 10`, `TfFe = 1`, everything else `0`, `k_m·V = 1`,
`h = 1`): the transferrin sub-species `TfFe` ends at `-9 < 0` for every
degradation factor, violating the non-negativity invariant.  The transfer
`dfedt·rel = 10` exceeds the available `TfFe = 1` because the
"enforce bounds" step `np.maximum(rel, 1.0)` amplifies instead of capping
(its own comment, and spec §9, intend a `minimum`), and no bound by the
source species is applied at all. -/
theorem C3_failing_input_eval (trnvr_rt : ℚ) :
    (tafc_advance_voxel ⟨10, 0, 0, 1, 0, 0⟩ 1 1 1 trnvr_rt).tfFe = -9 ∧
      (tafc_advance_voxel ⟨10, 0, 0, 1, 0, 0⟩ 1 1 1 trnvr_rt).tfFe < 0 := by
  unfold tafc_advance_voxel saturable_rate
  norm_num

section ChemotaxisLemmas

theorem cumsumFrom_all_zero {α : Type} [AddZeroClass α] (acc : α) (l : List α)
    (h : ∀ a ∈ l, a = 0) : ∀ cs ∈ cumsumFrom acc l, cs = acc := by
  induction l generalizing acc with
  | nil =>
      intro cs hcs
      simp [cumsumFrom] at hcs
  | cons a t ih =>
      intro cs hcs
      have ha : a = 0 := h a (List.mem_cons_self a t)
      rw [show cumsumFrom acc (a :: t) = (acc + a) :: cumsumFrom (acc + a) t from rfl,
        ha, add_zero] at hcs
      rcases List.mem_cons.mp hcs with rfl | hmem
      · rfl
      · exact ih acc (fun x hx => h x (List.mem_cons_of_mem a hx)) cs hmem

theorem findIdx_none_of_all_false {α : Type} (p : α → Bool) (l : List α)
    (h : ∀ a ∈ l, p a = false) : l.findIdx? p = none := by
  induction l with
  | nil => rfl
  | cons a t ih =>
      rw [List.findIdx?_cons, h a (List.mem_cons_self a t)]
      simp [ih (fun x hx => h x (List.mem_cons_of_mem a hx))]

theorem findIdx_cumsum_zero_head (l : List ℝ) (hne : l ≠ [])
    (h0 : ∀ a ∈ l, a = 0) :
    (cumsumFrom 0 l).findIdx? (fun cp => decide ((0 : ℝ) ≤ cp)) = some 0 := by
  cases l with
  | nil => exact absurd rfl hne
  | cons a t =>
      rw [show cumsumFrom (0 : ℝ) (a :: t) = (0 + a) :: cumsumFrom (0 + a) t from rfl,
        List.findIdx?_cons, h0 a (List.mem_cons_self a t)]
      norm_num

/-- Behavior of one phagocyte chemotaxis step when every candidate weight is
zero: a positive draw moves nothing; a zero draw snaps the position to the
representative coordinates of the current voxel (offset `(0,0,0)` is
selected because `prob <= cum_p` already holds at the first index). -/
theorem phagocyte_zero_weight_step (g : SimGrid) (tissue : ℤ → ℤ → ℤ → ℕ)
    (molecule : ℤ → ℤ → ℤ → ℝ) (dl db prob : ℝ) (c : SimCell)
    (hw : ∀ w ∈ phagocyte_weights g tissue molecule dl db (g.getVoxel c.point), w = 0) :
    (0 < prob → phagocyte_chemotaxis_one g tissue molecule dl db prob c = c) ∧
      (prob = 0 → (phagocyte_chemotaxis_one g tissue molecule dl db prob c).point =
        (g.xCoord (g.getVoxel c.point).1, g.yCoord (g.getVoxel c.point).2.1,
         g.zCoord (g.getVoxel c.point).2.2)) := by
  have hsum : (phagocyte_weights g tissue molecule dl db (g.getVoxel c.point)).sum = 0 :=
    List.sum_eq_zero hw
  constructor
  · intro hprob
    have hfind : (cumsumFrom 0 (phagocyte_weights g tissue molecule dl db
        (g.getVoxel c.point))).findIdx? (fun cp => decide (prob ≤ cp)) = none := by
      apply findIdx_none_of_all_false
      intro a ha
      rw [cumsumFrom_all_zero (0 : ℝ) _ hw a ha]
      simp only [decide_eq_false_iff_not]
      linarith
    simp only [phagocyte_chemotaxis_one]
    rw [if_neg (not_not_intro hsum), hfind]
  · intro hzero
    subst hzero
    have hne : phagocyte_weights g tissue molecule dl db (g.getVoxel c.point) ≠ [] := by
      simp [phagocyte_weights, offsets27]
    have hfind := findIdx_cumsum_zero_head _ hne hw
    simp only [phagocyte_chemotaxis_one]
    rw [if_neg (not_not_intro hsum), hfind]
    dsimp only
    have ho : offsets27.getD 0 ((0, 0, 0) : ℤ × ℤ × ℤ) =
        ((0 : ℤ), (0 : ℤ), (0 : ℤ)) := by decide
    rw [ho]
    simp

/-- The weights of the concrete all-AIR scenario are all zero (AIR is not a
tissue type permitting occupancy). -/
theorem tissueAir_weights_zero (dl db : ℝ) :
    ∀ w ∈ phagocyte_weights simGridUnit tissueAir molZero dl db
      (simGridUnit.getVoxel cellHalf.point), w = 0 := by
  intro w hwm
  simp only [phagocyte_weights, List.mem_map] at hwm
  obtain ⟨o, _, rfl⟩ := hwm
  simp [tissueAir]

theorem aliveCountBefore_zero (cells : List SimCell) : aliveCountBefore cells 0 = 0 := rfl

theorem aliveCountBefore_cons (c : SimCell) (cs : List SimCell) (i : ℕ) :
    aliveCountBefore (c :: cs) (i + 1) =
      (if c.alive then 1 else 0) + aliveCountBefore cs i := by
  unfold aliveCountBefore
  rw [List.take_succ_cons, List.filter_cons]
  by_cases hc : c.alive
  · simp [hc]
    omega
  · simp [hc]

end ChemotaxisLemmas

/-- C8, counterexample: an agent with all candidate weights zero (all-AIR
neighborhood) and a drawn uniform of exactly `0.0` does not keep its
position: the first-match loop fires at index 0 (`prob <= cum_p` with both
sides `0`) and snaps the position from `(1/2, 1/2, 1/2)` to the voxel
representative `(0, 0, 0)`. -/
theorem C8_counterexample :
    (phagocyte_chemotaxis_one simGridUnit tissueAir molZero 1 1 0 cellHalf).point ≠
      cellHalf.point := by
  have h := (phagocyte_zero_weight_step simGridUnit tissueAir molZero 1 1 0 cellHalf
    (tissueAir_weights_zero 1 1)).2 rfl
  rw [h]
  simp [simGridUnit, cellHalf]
  intro heq
  have h1 := congrArg Prod.fst heq
  norm_num at h1

/-- C8 (amended): if an agent's 27 candidate weights are all zero, the
phagocyte chemotaxis call leaves the agent unchanged whenever the drawn
uniform is strictly positive; in the measure-zero case of a draw of exactly
`0.0` the agent's voxel offset `(0,0,0)` is selected, so its position is
reset to its current voxel's representative coordinates (same voxel, not
necessarily the same position).  `choose_voxel_by_prob` (the nlisim
utility) returns the default voxel for all-zero weights regardless of the
draw. -/
theorem C8_amended :
    (∀ (g : SimGrid) (tissue : ℤ → ℤ → ℤ → ℕ) (molecule : ℤ → ℤ → ℤ → ℝ)
        (dl db prob : ℝ) (c : SimCell),
      (∀ w ∈ phagocyte_weights g tissue molecule dl db (g.getVoxel c.point), w = 0) →
      (0 < prob → phagocyte_chemotaxis_one g tissue molecule dl db prob c = c) ∧
        (prob = 0 → (phagocyte_chemotaxis_one g tissue molecule dl db prob c).point =
          (g.xCoord (g.getVoxel c.point).1, g.yCoord (g.getVoxel c.point).2.1,
           g.zCoord (g.getVoxel c.point).2.2))) ∧
      (∀ (V : Type) (voxels : List V) (default_value : V) (weights : List ℚ) (u : ℚ),
        (∀ w ∈ weights, w = 0) →
        choose_voxel_by_prob voxels default_value weights u = default_value) := by
  constructor
  · intro g tissue molecule dl db prob c hw
    exact phagocyte_zero_weight_step g tissue molecule dl db prob c hw
  · intro V voxels default_value weights u hw
    unfold choose_voxel_by_prob
    rw [if_pos (le_of_eq (List.sum_eq_zero hw))]

/-- C8 witness: the amended theorem at the concrete all-AIR scenario with a
positive draw, and at a concrete all-zero weight list. -/
theorem C8_witness :
    phagocyte_chemotaxis_one simGridUnit tissueAir molZero 1 1 (1 / 2) cellHalf =
        cellHalf ∧
      choose_voxel_by_prob [((0, 0, 0) : ℤ × ℤ × ℤ)] ((0, 0, 0) : ℤ × ℤ × ℤ)
        [0, 0] (1 / 3) = (0, 0, 0) :=
  ⟨(C8_amended.1 simGridUnit tissueAir molZero 1 1 (1 / 2) cellHalf
      (tissueAir_weights_zero 1 1)).1 (by norm_num),
   C8_amended.2 _ [((0, 0, 0) : ℤ × ℤ × ℤ)] ((0, 0, 0) : ℤ × ℤ × ℤ) [0, 0] (1 / 3)
      (by
        intro w hw
        simp only [List.mem_cons, List.not_mem_nil, or_false] at hw
        rcases hw with rfl | rfl <;> rfl)⟩

/-- Evaluation helper: the macrophage chemotaxis weights at voxel `(0,0,0)`
of the all-SURFACTANT one-voxel grid with `drift_bias = 0` (so every
admissible candidate has `logistic = 1`). -/
theorem macro_weights_unit_eval :
    macro_weights simGridUnit tissueSurf molZero 1 0 (0, 0, 0) =
      [1, 1, 0, 1, 1, 0, 0, 0, 0, 1, 1, 0, 1, 1, 0, 0, 0, 0,
       0, 0, 0, 0, 0, 0, 0, 0, 0] := by
  simp only [macro_weights]
  norm_num [macro_candidates, macro_x_loop, macro_y_loop, macro_z_loop,
    simGridUnit, tissueSurf, molZero, logistic]

/-- Evaluation helper: with the shared draw `1/10` the first cumulative
probability (`1/8`) is already reached, so the selected offset is `(0,0,0)`
and the agent stays at `(1/2, 1/2, 1/2)`. -/
theorem macro_step_low :
    macrophage_chemotaxis_one simGridUnit tissueSurf molZero 1 0 (1 / 10) cellHalf =
      cellHalf := by
  have hw := macro_weights_unit_eval
  simp only [macrophage_chemotaxis_one, simGridUnit, cellHalf] at hw ⊢
  rw [hw]
  norm_num [cumsumFrom, List.findIdx?_cons, macro_candidates, macro_x_loop,
    macro_y_loop, macro_z_loop]

/-- Evaluation helper: with a draw of `9/10` the cumulative probability
first reaches the draw at index 13, offset `(1,1,1)`, so the agent moves to
`(3/2, 3/2, 3/2)`. -/
theorem macro_step_high :
    macrophage_chemotaxis_one simGridUnit tissueSurf molZero 1 0 (9 / 10) cellHalf =
      ⟨(3 / 2, 3 / 2, 3 / 2), 0⟩ := by
  have hw := macro_weights_unit_eval
  simp only [macrophage_chemotaxis_one, simGridUnit, cellHalf] at hw ⊢
  rw [hw]
  norm_num [cumsumFrom, List.findIdx?_cons, macro_candidates, macro_x_loop,
    macro_y_loop, macro_z_loop]

/-- C9, counterexample: in the macrophage advance the single drawn value is
shared by all agents of the call.  With two identical living agents and the
stream `(1/10, 9/10, ...)`, the code moves neither agent (both use `1/10`),
while the claimed per-agent fresh-draw semantics moves the second agent to
`(3/2, 3/2, 3/2)` using the stream's second value. -/
theorem C9_counterexample :
    macrophage_advance_chemotaxis simGridUnit tissueSurf molZero 1 0
        [cellHalf, cellHalf] drawsLowHigh ≠
      macrophage_fresh_draw_chemotaxis simGridUnit tissueSurf molZero 1 0
        [cellHalf, cellHalf] drawsLowHigh := by
  have halive : cellHalf.alive = true := rfl
  have hd0 : drawsLowHigh 0 = 1 / 10 := rfl
  have hL : macrophage_advance_chemotaxis simGridUnit tissueSurf molZero 1 0
      [cellHalf, cellHalf] drawsLowHigh = [cellHalf, cellHalf] := by
    simp only [macrophage_advance_chemotaxis, macrophage_chemotaxis, List.map,
      halive, if_true, hd0, macro_step_low]
  have hR : macrophage_fresh_draw_chemotaxis simGridUnit tissueSurf molZero 1 0
      [cellHalf, cellHalf] drawsLowHigh =
      [cellHalf, ⟨(3 / 2, 3 / 2, 3 / 2), 0⟩] := by
    have hd1 : (fun k => drawsLowHigh (k + 1)) 0 = 9 / 10 := rfl
    simp only [macrophage_fresh_draw_chemotaxis, halive, if_true, hd0, hd1,
      macro_step_low, macro_step_high]
  rw [hL, hR]
  intro heq
  have h1 := List.head_eq_of_cons_eq (List.tail_eq_of_cons_eq heq)
  have h2 := congrArg (fun c : SimCell => c.point.1) h1
  simp [cellHalf] at h2
  norm_num at h2

/-- C9 (amended): the phagocyte list chemotaxis does select each living
agent's move with one fresh uniform value per agent — the `i`-th agent
consumes exactly the stream position equal to the number of living agents
before it, independent of the rest of the stream — with first-match
selection over the fixed 27-offset order inside
`phagocyte_chemotaxis_one`.  The macrophage advance path instead applies
the single head draw of the stream to every living agent of the call. -/
theorem C9_amended :
    (∀ (g : SimGrid) (tissue : ℤ → ℤ → ℤ → ℕ) (molecule : ℤ → ℤ → ℤ → ℝ)
        (dl db : ℝ) (cells : List SimCell) (draws : ℕ → ℝ) (i : ℕ)
        (h : i < cells.length),
      (phagocyte_chemotaxis g tissue molecule dl db cells draws).get? i =
        some (if (cells.get ⟨i, h⟩).alive then
            phagocyte_chemotaxis_one g tissue molecule dl db
              (draws (aliveCountBefore cells i)) (cells.get ⟨i, h⟩)
          else cells.get ⟨i, h⟩)) ∧
      (∀ (g : SimGrid) (tissue : ℤ → ℤ → ℤ → ℕ) (molecule : ℤ → ℤ → ℤ → ℝ)
        (dl db : ℝ) (cells : List SimCell) (draws : ℕ → ℝ),
        macrophage_advance_chemotaxis g tissue molecule dl db cells draws =
          cells.map (fun c =>
            if c.alive then
              macrophage_chemotaxis_one g tissue molecule dl db (draws 0) c
            else c)) := by
  constructor
  · intro g tissue molecule dl db cells
    induction cells with
    | nil =>
        intro draws i h
        exact absurd h (by simp)
    | cons c cs ih =>
        intro draws i h
        by_cases hc : c.alive
        · cases i with
          | zero =>
              simp only [phagocyte_chemotaxis, hc, if_true]
              simp [aliveCountBefore_zero, hc]
          | succ i' =>
              have h' : i' < cs.length := by simpa using h
              have hcount : aliveCountBefore (c :: cs) (i' + 1) =
                  aliveCountBefore cs i' + 1 := by
                rw [aliveCountBefore_cons]
                simp [hc]
                omega
              have step := ih (fun k => draws (k + 1)) i' h'
              simp only [phagocyte_chemotaxis, hc, if_true, List.get?_cons_succ,
                List.get_cons_succ, hcount]
              exact step
        · cases i with
          | zero =>
              simp only [phagocyte_chemotaxis, hc, if_false]
              simp [hc]
          | succ i' =>
              have h' : i' < cs.length := by simpa using h
              have hcount : aliveCountBefore (c :: cs) (i' + 1) =
                  aliveCountBefore cs i' := by
                rw [aliveCountBefore_cons]
                simp [hc]
              have step := ih draws i' h'
              simp only [phagocyte_chemotaxis, hc, if_false, List.get?_cons_succ,
                List.get_cons_succ, hcount]
              exact step
  · intro g tissue molecule dl db cells draws
    rfl

/-- C9 witness: the amended theorem at a concrete one-agent list (a dead
agent, which consumes no draw and stays untouched) and at the concrete
macrophage call of the counterexample scenario. -/
theorem C9_witness :
    (phagocyte_chemotaxis simGridUnit tissueAir molZero 1 1 [cellDead]
        (fun _ => 0)).get? 0 = some cellDead ∧
      macrophage_advance_chemotaxis simGridUnit tissueSurf molZero 1 0
          [cellHalf] drawsLowHigh =
        [cellHalf].map (fun c =>
          if c.alive then
            macrophage_chemotaxis_one simGridUnit tissueSurf molZero 1 0
              (drawsLowHigh 0) c
          else c) := by
  constructor
  · have h := C9_amended.1 simGridUnit tissueAir molZero 1 1 [cellDead]
      (fun _ => 0) 0 (by norm_num)
    simpa [cellDead, SimCell.alive] using h
  · exact C9_amended.2 simGridUnit tissueSurf molZero 1 0 [cellHalf] drawsLowHigh
